import Mathlib

/-!
Shallow embedding of the Google-Merchant CSV feed generator
(src/src/app/api/feed/route.js) and verification of its specification.

Modelling conventions:
* JavaScript strings are Lean `String`; optional / nullable string fields are
  `Option String` with `none` standing for `null` or an absent key.
* The field `inventory_management` is read with a strict `=== null` test in the
  source, so its model distinguishes an absent key (`undef`) from `null`.
* Monetary amounts ("19.99") are modelled as exact cent counts (`Int`), the
  value `parseFloat` recovers from the decimal string; a missing price, whose
  `parseFloat` is `NaN`, is `none`.
* Weights are modelled as rationals; the JavaScript numeric rendering of a
  weight is abstracted as `toString`.
* Cells handed to `escapeCsv` are modelled by `JsVal`, which carries the
  JavaScript falsiness and `String(...)` conversion used by the source.
-/

/-- A JavaScript value that may be `undefined`, `null`, or a string:
`variant.inventory_management` is compared with `=== null` in the source,
so absence and `null` must stay distinguishable. -/
inductive JsNullable where
  | undef : JsNullable
  | null : JsNullable
  | str : String → JsNullable
  deriving DecidableEq, Repr

/-- A JavaScript value as it reaches `escapeCsv`: every cell of a feed row is
a string except `product.id`, which is a number. -/
inductive JsVal where
  | undef : JsVal
  | null : JsVal
  | str : String → JsVal
  | num : Int → JsVal
  | bool : Bool → JsVal
  deriving DecidableEq, Repr

/-- JavaScript falsiness (`!v`) restricted to the values `JsVal` models. -/
def jsFalsy : JsVal → Bool
  | .undef => true
  | .null => true
  | .str s => s = ""
  | .num n => n = 0
  | .bool b => !b

/-- The JavaScript `String(v)` conversion restricted to `JsVal`. -/
def jsToString : JsVal → String
  | .undef => "undefined"
  | .null => "null"
  | .str s => s
  | .num n => toString n
  | .bool b => if b then "true" else "false"

/-- `Array.prototype.join(sep)`. -/
def jsJoin (sep : String) : List String → String
  | [] => ""
  | [x] => x
  | x :: xs => x ++ sep ++ jsJoin sep xs

/-- JavaScript string truthiness fallback `v || d` for an optional string:
`null`, an absent key and `""` are all falsy. -/
def orElseStr (v : Option String) (d : String) : String :=
  match v with
  | none => d
  | some s => if s = "" then d else s

/-- One product image (`images[i]`), carrying its `src` URL. -/
structure Image where
  src : String
  deriving DecidableEq, Repr

/-- One product option (`product.options[i]`): a name matched
case-insensitively and a 1-based position into the variant option slots. -/
structure ProductOption where
  name : String
  position : Nat
  deriving DecidableEq, Repr

/-- A product variant as consumed by the feed route. -/
structure Variant where
  id : Nat
  sku : Option String
  title : String
  price : Option Int
  compare_at_price : Option Int
  inventory_management : JsNullable
  inventory_quantity : Int
  barcode : Option String
  weight : Option ℚ
  weight_unit : Option String
  option1 : Option String
  option2 : Option String
  option3 : Option String
  deriving DecidableEq, Repr

/-- A product as consumed by the feed route. -/
structure Product where
  id : Nat
  title : String
  handle : String
  body_html : Option String
  vendor : Option String
  product_type : Option String
  status : String
  images : Option (List Image)
  options : Option (List ProductOption)
  variants : List Variant
  deriving DecidableEq, Repr

/-- The fixed shop base URL (`SHOP_DOMAIN`). -/
def SHOP_DOMAIN : String := "https://lunaglow.de"

/-- The fixed currency code (`CURRENCY`). -/
def CURRENCY : String := "EUR"

/-- The 19 CSV header names (`CSV_HEADERS`). -/
def CSV_HEADERS : List String :=
  [ "id", "title", "description", "link", "image_link", "additional_image_link",
    "availability", "price", "sale_price", "brand", "condition", "gtin",
    "identifier_exists", "product_type", "item_group_id", "color", "size",
    "material", "shipping_weight" ]

/-- The characters the CSV escaper treats as reserved
(`value.includes` checks of `escapeCsv`). -/
def hasCsvSpecial (s : String) : Bool :=
  s.data.contains '"' || s.data.contains ',' || s.data.contains '\n'

/-- Global single-character replacement of a double quote by two double
quotes (`value.replace` with a global quote pattern in `escapeCsv`). -/
def doubleQuotes : List Char → List Char
  | [] => []
  | c :: cs => if c = '"' then c :: c :: doubleQuotes cs else c :: doubleQuotes cs

/-- `escapeCsv`: a falsy cell becomes the empty string; otherwise the text is
wrapped in double quotes with inner quotes doubled when it contains a quote,
a comma or a newline, and emitted verbatim otherwise. -/
def escapeCsv (v : JsVal) : String :=
  if jsFalsy v then ""
  else
    let value := jsToString v
    if hasCsvSpecial value then
      "\"" ++ String.mk (doubleQuotes value.data) ++ "\""
    else value

/-- ASCII whitespace, modelling the whitespace class of the regular
expressions in `stripHtml`. -/
def isJsWs (c : Char) : Bool :=
  c = ' ' || c = '\t' || c = '\n' || c = '\r' || c = '\x0b' || c = '\x0c'

/-- Drop characters up to and including the first closing angle bracket,
or report that none exists. -/
def dropThroughGt : List Char → Option (List Char)
  | [] => none
  | c :: cs => if c = '>' then some cs else dropThroughGt cs

theorem dropThroughGt_length :
    ∀ (l rest : List Char), dropThroughGt l = some rest → rest.length < l.length
  | [], _, h => by simp [dropThroughGt] at h
  | c :: cs, rest, h => by
    by_cases hc : c = '>'
    · simp [dropThroughGt, hc] at h
      simp [← h]
    · simp [dropThroughGt, hc] at h
      have := dropThroughGt_length cs rest h
      simpa using Nat.lt_succ_of_lt this

/-- Remove every HTML-tag match of the first regular expression of
`stripHtml`: from an opening angle bracket through the first closing one;
an opening bracket with no closing one is kept. -/
def removeTags : List Char → List Char
  | [] => []
  | c :: cs =>
    if c = '<' then
      match h : dropThroughGt cs with
      | some rest => removeTags rest
      | none => c :: removeTags cs
    else c :: removeTags cs
termination_by l => l.length
decreasing_by
  · have := dropThroughGt_length cs rest h
    simp
    omega
  · simp
  · simp

theorem dropWhile_length_le (p : Char → Bool) :
    ∀ (l : List Char), (l.dropWhile p).length ≤ l.length
  | [] => by simp
  | c :: cs => by
    by_cases hc : p c
    · simp only [List.dropWhile_cons, hc, if_true]
      exact Nat.le_succ_of_le (dropWhile_length_le p cs)
    · simp [List.dropWhile_cons, hc]

/-- Collapse every run of whitespace to one space (the second regular
expression of `stripHtml`). -/
def collapseWs : List Char → List Char
  | [] => []
  | c :: cs =>
    if isJsWs c then ' ' :: collapseWs (cs.dropWhile isJsWs)
    else c :: collapseWs cs
termination_by l => l.length
decreasing_by
  · have := dropWhile_length_le isJsWs cs
    simp
    omega
  · simp

/-- JavaScript `trim`: drop leading and trailing whitespace. -/
def jsTrim (l : List Char) : List Char :=
  ((l.dropWhile isJsWs).reverse.dropWhile isJsWs).reverse

/-- `stripHtml`: a falsy argument becomes the empty string; otherwise tags
are removed, whitespace runs are collapsed and the ends are trimmed. -/
def stripHtml (html : Option String) : String :=
  match html with
  | none => ""
  | some s =>
    if s = "" then ""
    else String.mk (jsTrim (collapseWs (removeTags s.data)))

/-- `getAvailability`: inactive products are out of stock; a variant whose
inventory management is exactly `null` is in stock; otherwise stock follows
the sign of the inventory quantity. -/
def getAvailability (variant : Variant) (productStatus : String) : String :=
  if productStatus ≠ "active" then "out_of_stock"
  else
    match variant.inventory_management with
    | .null => "in_stock"
    | _ => if variant.inventory_quantity > 0 then "in_stock" else "out_of_stock"

/-- The positional option slot of a variant selected by a 1-based position
(the dynamic property read of `getVariantOptionByName`); any position other
than 1, 2, 3 reads an absent property. -/
def variantSlot (v : Variant) (pos : Nat) : Option String :=
  match pos with
  | 1 => v.option1
  | 2 => v.option2
  | 3 => v.option3
  | _ => none

/-- The `toLowerCase` conversion used for option-name matching, modelled as
character-wise ASCII case folding. -/
def jsToLower (s : String) : String := String.mk (s.data.map Char.toLower)

/-- `getVariantOptionByName`: find the product option whose name matches
case-insensitively, read the variant slot at its position, and collapse an
absent or empty slot value to `none` (the trailing falsiness fallback). -/
def getVariantOptionByName (p : Product) (v : Variant) (optionName : String) :
    Option String :=
  match (p.options.getD []).find? (fun o => jsToLower o.name = jsToLower optionName) with
  | none => none
  | some o =>
    match variantSlot v o.position with
    | none => none
    | some s => if s = "" then none else some s

/-- Format a cent count with two decimals, as `toFixed(2)` renders the
corresponding decimal amount. -/
def toFixed2 (n : Int) : String :=
  let a := n.natAbs
  let frac := a % 100
  (if n < 0 then "-" else "")
    ++ toString (a / 100) ++ "."
    ++ (if frac < 10 then "0" ++ toString frac else toString frac)

/-- Render `parseFloat` of an optional price: a missing price parses to
`NaN`, which `toFixed(2)` renders as the text `NaN`. -/
def priceText (price : Option Int) : String :=
  match price with
  | none => "NaN"
  | some n => toFixed2 n

/-- The sale test of `buildItemRow`: a truthy compare-at price that parses
strictly greater than the parsed price (any comparison with `NaN` fails). -/
def hasSalePrice (v : Variant) : Bool :=
  match v.compare_at_price, v.price with
  | some c, some p => p < c
  | some _, none => false
  | none, _ => false

/-- The `sale_price` cell of `buildItemRow`. -/
def salePrice (v : Variant) : String :=
  if hasSalePrice v then priceText v.price ++ " " ++ CURRENCY else ""

/-- The `price` cell of `buildItemRow`. -/
def regularPrice (v : Variant) : String :=
  if hasSalePrice v then priceText v.compare_at_price ++ " " ++ CURRENCY
  else priceText v.price ++ " " ++ CURRENCY

/-- The id cell of `buildItemRow`: the SKU when truthy, otherwise the
synthetic `shopify_<productId>_<variantId>` identifier. -/
def variantIdCell (p : Product) (v : Variant) : String :=
  orElseStr v.sku ("shopify_" ++ toString p.id ++ "_" ++ toString v.id)

/-- The title cell of `buildItemRow`. -/
def titleCell (p : Product) (v : Variant) : String :=
  if v.title ≠ "Default Title" then p.title ++ " - " ++ v.title else p.title

/-- The link cell of `buildItemRow`. -/
def linkCell (p : Product) : String :=
  SHOP_DOMAIN ++ "/products/" ++ p.handle

/-- The primary image cell of `buildItemRow`. -/
def imageLinkCell (p : Product) : String :=
  orElseStr ((p.images.getD []).head?.map Image.src) ""

/-- The additional images cell of `buildItemRow`: every image after the
first, rendered as its URL, joined with commas. -/
def additionalImagesCell (p : Product) : String :=
  jsJoin "," (((p.images.getD []).drop 1).map Image.src)

/-- The brand cell of `buildItemRow`. -/
def brandCell (p : Product) : String := orElseStr p.vendor ""

/-- The gtin cell of `buildItemRow`. -/
def barcodeCell (v : Variant) : String := orElseStr v.barcode ""

/-- The identifier existence cell of `buildItemRow`: the literal text
`false` when no barcode is present, empty otherwise. -/
def identifierExistsCell (v : Variant) : String :=
  if barcodeCell v = "" then "false" else ""

/-- The product type cell of `buildItemRow`. -/
def productTypeCell (p : Product) : String := orElseStr p.product_type ""

/-- The color cell of `buildItemRow`: `Color`, then the German `Farbe`,
then empty. -/
def colorCell (p : Product) (v : Variant) : String :=
  match getVariantOptionByName p v "Color" with
  | some s => s
  | none =>
    match getVariantOptionByName p v "Farbe" with
    | some s => s
    | none => ""

/-- The size cell of `buildItemRow`: `Size`, then the German `Größe`,
then empty. -/
def sizeCell (p : Product) (v : Variant) : String :=
  match getVariantOptionByName p v "Size" with
  | some s => s
  | none =>
    match getVariantOptionByName p v "Größe" with
    | some s => s
    | none => ""

/-- The material cell of `buildItemRow`: `Material` with no fallback. -/
def materialCell (p : Product) (v : Variant) : String :=
  match getVariantOptionByName p v "Material" with
  | some s => s
  | none => ""

/-- The shipping weight cell of `buildItemRow`: empty unless the weight is
truthy and positive, otherwise the value followed by the unit
(defaulting to kilograms). -/
def weightCell (v : Variant) : String :=
  match v.weight with
  | none => ""
  | some w =>
    if w > 0 then toString w ++ " " ++ orElseStr v.weight_unit "kg" else ""

/-- The 19 cells of the row array of `buildItemRow`, in source order;
`product.id` is the one numeric cell. -/
def rowCells (p : Product) (v : Variant) : List JsVal :=
  [ .str (variantIdCell p v),
    .str (titleCell p v),
    .str (stripHtml p.body_html),
    .str (linkCell p),
    .str (imageLinkCell p),
    .str (additionalImagesCell p),
    .str (getAvailability v p.status),
    .str (regularPrice v),
    .str (salePrice v),
    .str (brandCell p),
    .str "new",
    .str (barcodeCell v),
    .str (identifierExistsCell v),
    .str (productTypeCell p),
    .num (Int.ofNat p.id),
    .str (colorCell p v),
    .str (sizeCell p v),
    .str (materialCell p v),
    .str (weightCell v) ]

/-- `buildItemRow`: escape each cell and join with commas. -/
def buildItemRow (p : Product) (v : Variant) : String :=
  jsJoin "," ((rowCells p v).map escapeCsv)

/-- The row assembly of the route handler: keep active products and emit one
row per variant, in product-then-variant order. -/
def feedRows (products : List Product) : List String :=
  (products.filter (fun p => p.status = "active")).flatMap
    (fun p => p.variants.map (buildItemRow p))

/-- The document assembly of the route handler: the joined header line
followed by the data rows, all joined with single newlines. -/
def buildCsv (rows : List String) : String :=
  jsJoin "\n" (jsJoin "," CSV_HEADERS :: rows)

/-- One page returned by the catalog source: a burst of products and the
truthiness of `response.pageInfo?.nextPage` (the continuation token). -/
structure PageResponse where
  products : List Product
  hasNext : Bool
  deriving DecidableEq, Repr

/-- `fetchAllProducts`, run against the stream of responses the source
would serve in order: the first page is always requested; afterwards a page
is requested exactly when the previous response carried a continuation
token. Returns the accumulated products and the number of requests. -/
def fetchAllProducts : List PageResponse → List Product × Nat
  | [] => ([], 0)
  | r :: rest =>
    if r.hasNext then
      let t := fetchAllProducts rest
      (r.products ++ t.1, t.2 + 1)
    else (r.products, 1)

/-! ## Shared example data -/

/-- A variant whose inventory management key is absent (`undefined`) with a
zero quantity; all other optional fields are unset. -/
def untrackedUnsetVariant : Variant :=
  { id := 7, sku := none, title := "Default Title", price := some 1999,
    compare_at_price := none, inventory_management := .undef,
    inventory_quantity := 0, barcode := none, weight := none,
    weight_unit := none, option1 := none, option2 := none, option3 := none }

/-- The same variant with inventory management exactly `null`. -/
def nullManagedVariant : Variant :=
  { untrackedUnsetVariant with inventory_management := .null }

/-- A variant on sale: price 19.99, compare-at price 24.99. -/
def saleVariant : Variant :=
  { untrackedUnsetVariant with compare_at_price := some 2499 }

/-! ## C1: availability -/

/-- C1 (counterexample). The claim asserts that an absent (unset) inventory
management mode yields `in_stock` regardless of quantity; on this variant the
mode is absent, the quantity is zero, the product is active, and the code
returns `out_of_stock`. -/
theorem getAvailability_unset_management_counterexample :
    untrackedUnsetVariant.inventory_management = JsNullable.undef ∧
    untrackedUnsetVariant.inventory_quantity = 0 ∧
    getAvailability untrackedUnsetVariant "active" = "out_of_stock" ∧
    getAvailability untrackedUnsetVariant "active" ≠ "in_stock" := by
  refine ⟨rfl, rfl, rfl, ?_⟩
  decide

/-- C1 (amended). Availability is `out_of_stock` when the product status is
not `active`; otherwise it is `in_stock` when the inventory management mode
is exactly `null`, regardless of quantity; for any other mode, including an
absent one, it is `in_stock` exactly when the inventory quantity is
positive. -/
theorem getAvailability_characterization (v : Variant) (status : String) :
    (status ≠ "active" → getAvailability v status = "out_of_stock") ∧
    (status = "active" →
      ((v.inventory_management = JsNullable.null →
          getAvailability v status = "in_stock") ∧
       (v.inventory_management ≠ JsNullable.null →
          (getAvailability v status = "in_stock" ↔ 0 < v.inventory_quantity)))) := by
  constructor
  · intro h
    simp [getAvailability, h]
  · intro h
    subst h
    constructor
    · intro hm
      simp [getAvailability, hm]
    · intro hm
      cases him : v.inventory_management with
      | null => exact absurd him hm
      | undef =>
        by_cases hq : 0 < v.inventory_quantity
        · simp [getAvailability, him, hq]
        · simp [getAvailability, him, hq]
      | str s =>
        by_cases hq : 0 < v.inventory_quantity
        · simp [getAvailability, him, hq]
        · simp [getAvailability, him, hq]

/-- C1 (witness). The amended characterization applied to a null-managed
variant on an active product, and to an inactive product. -/
theorem getAvailability_characterization_witness :
    getAvailability nullManagedVariant "active" = "in_stock" ∧
    getAvailability nullManagedVariant "draft" = "out_of_stock" :=
  ⟨((getAvailability_characterization nullManagedVariant "active").2 rfl).1 rfl,
   (getAvailability_characterization nullManagedVariant "draft").1 (by decide)⟩

/-! ## C2: sale and regular price -/

/-- C2. A sale applies exactly when a compare-at price is present and
numerically greater than the price; on a sale the price is rendered as the
sale price and the compare-at price as the regular price; otherwise the
price is rendered as the regular price and the sale price is empty. -/
theorem price_tier_characterization (v : Variant) (p : Int) (hp : v.price = some p) :
    (hasSalePrice v = true ↔ ∃ c, v.compare_at_price = some c ∧ p < c) ∧
    (∀ c, v.compare_at_price = some c → p < c →
        salePrice v = toFixed2 p ++ " " ++ CURRENCY ∧
        regularPrice v = toFixed2 c ++ " " ++ CURRENCY) ∧
    (hasSalePrice v = false →
        regularPrice v = toFixed2 p ++ " " ++ CURRENCY ∧ salePrice v = "") := by
  refine ⟨?_, ?_, ?_⟩
  · cases hc : v.compare_at_price with
    | none => simp [hasSalePrice, hc, hp]
    | some c => simp [hasSalePrice, hc, hp]
  · intro c hc hlt
    have hs : hasSalePrice v = true := by
      simp [hasSalePrice, hc, hp, hlt]
    simp [salePrice, regularPrice, hs, priceText, hp, hc]
  · intro hs
    simp [salePrice, regularPrice, hs, priceText, hp]

/-- C2 (witness). The discounted example variant: price 19.99, compare-at
24.99, so the sale price is 19.99 EUR and the regular price 24.99 EUR. -/
theorem price_tier_characterization_witness :
    salePrice saleVariant = "19.99 EUR" ∧ regularPrice saleVariant = "24.99 EUR" := by
  have h :=
    (price_tier_characterization saleVariant 1999 rfl).2.1 2499 rfl (by decide)
  refine ⟨?_, ?_⟩
  · rw [h.1]
    decide
  · rw [h.2]
    decide

/-! ## C3: CSV field escaping -/

theorem doubleQuotes_eq_flatMap (l : List Char) :
    doubleQuotes l = l.flatMap (fun c => if c = '"' then [c, c] else [c]) := by
  induction l with
  | nil => rfl
  | cons c cs ih =>
    by_cases hc : c = '"'
    · simp [doubleQuotes, hc, ih]
    · simp [doubleQuotes, hc, ih]

/-- C3. The escaper maps a falsy cell to the empty string; any other cell
is rendered as its text, wrapped in double quotes with every embedded
double quote doubled when the text contains a quote, a comma or a newline,
and emitted unchanged otherwise. -/
theorem escapeCsv_characterization (v : JsVal) :
    (jsFalsy v = true → escapeCsv v = "") ∧
    (jsFalsy v = false →
      (hasCsvSpecial (jsToString v) = true →
        escapeCsv v =
          "\"" ++ String.mk ((jsToString v).data.flatMap
            (fun c => if c = '"' then [c, c] else [c])) ++ "\"") ∧
      (hasCsvSpecial (jsToString v) = false → escapeCsv v = jsToString v)) := by
  refine ⟨?_, ?_⟩
  · intro h
    simp [escapeCsv, h]
  · intro h
    refine ⟨?_, ?_⟩
    · intro hs
      simp [escapeCsv, h, hs, doubleQuotes_eq_flatMap]
    · intro hs
      simp [escapeCsv, h, hs]

/-- C3 (witness). A comma-bearing cell is quoted, an embedded quote is
doubled, a plain cell passes through, a null cell becomes empty. -/
theorem escapeCsv_characterization_witness :
    escapeCsv (JsVal.str "a,b") = "\"a,b\"" ∧
    escapeCsv (JsVal.str "say \"hi\"") = "\"say \"\"hi\"\"\"" ∧
    escapeCsv (JsVal.str "plain") = "plain" ∧
    escapeCsv JsVal.null = "" := by
  have h1 := ((escapeCsv_characterization (JsVal.str "a,b")).2 (by decide)).1 (by decide)
  have h2 := ((escapeCsv_characterization (JsVal.str "say \"hi\"")).2 (by decide)).1 (by decide)
  have h3 := ((escapeCsv_characterization (JsVal.str "plain")).2 (by decide)).2 (by decide)
  have h4 := (escapeCsv_characterization JsVal.null).1 (by decide)
  refine ⟨?_, ?_, h3, h4⟩
  · rw [h1]; decide
  · rw [h2]; decide

/-! ## C4: one row per active variant -/

/-- C4. The assembled feed contains, in fetch order, exactly the rows of the
active products, one per variant in variant order, and an inactive product
contributes no row; consequently the row count is the sum of the variant
counts of the active products. -/
theorem feedRows_one_row_per_active_variant (products : List Product) :
    feedRows products =
      products.flatMap (fun p =>
        if p.status = "active" then p.variants.map (buildItemRow p) else []) ∧
    (feedRows products).length =
      (products.map (fun p =>
        if p.status = "active" then p.variants.length else 0)).sum := by
  have h : feedRows products =
      products.flatMap (fun p =>
        if p.status = "active" then p.variants.map (buildItemRow p) else []) := by
    induction products with
    | nil => rfl
    | cons p rest ih =>
      simp only [feedRows] at ih ⊢
      by_cases hp : p.status = "active" <;>
        simp [List.filter_cons, hp, List.flatMap_cons, ih]
  refine ⟨h, ?_⟩
  rw [h, List.length_flatMap]
  congr 1
  apply List.map_congr_left
  intro p _
  by_cases hp : p.status = "active" <;> simp [hp]

/-! ## C5: exhaustive pagination -/

/-- C5. Over a source whose pages all carry a continuation token except the
last, the fetcher requests exactly one page per available page (no request
follows an absent token) and returns the concatenation of the pages in
order, so the product count is the sum of the page counts. -/
theorem fetchAllProducts_pagination (pre : List PageResponse) (last : PageResponse)
    (hpre : ∀ r ∈ pre, r.hasNext = true) (hlast : last.hasNext = false) :
    (fetchAllProducts (pre ++ [last])).1 =
      ((pre ++ [last]).map PageResponse.products).flatten ∧
    (fetchAllProducts (pre ++ [last])).2 = pre.length + 1 ∧
    (fetchAllProducts (pre ++ [last])).1.length =
      ((pre ++ [last]).map (fun r => r.products.length)).sum := by
  have main : ∀ pre : List PageResponse, (∀ r ∈ pre, r.hasNext = true) →
      (fetchAllProducts (pre ++ [last])).1 =
        ((pre ++ [last]).map PageResponse.products).flatten ∧
      (fetchAllProducts (pre ++ [last])).2 = pre.length + 1 := by
    intro pre hpre
    induction pre with
    | nil =>
      simp [fetchAllProducts, hlast]
    | cons r rest ih =>
      have hr : r.hasNext = true := hpre r (List.mem_cons_self r rest)
      have hrest : ∀ x ∈ rest, x.hasNext = true :=
        fun x hx => hpre x (List.mem_cons_of_mem r hx)
      have ih2 := ih hrest
      simp only [List.cons_append, fetchAllProducts, hr, if_true]
      constructor
      · simp [ih2.1]
      · simp [ih2.2]
  have hm := main pre hpre
  refine ⟨hm.1, hm.2, ?_⟩
  rw [hm.1]
  induction (pre ++ [last]) with
  | nil => rfl
  | cons r rest ih => simp [ih]

/-- An active one-variant product used by concrete pagination examples. -/
def pageProductA : Product :=
  { id := 1, title := "Lotion", handle := "lotion", body_html := none,
    vendor := none, product_type := none, status := "active", images := none,
    options := none, variants := [untrackedUnsetVariant] }

/-- A second product used by concrete pagination examples. -/
def pageProductB : Product :=
  { pageProductA with id := 2, title := "Serum", handle := "serum" }

/-- C5 (witness). Two pages, the first with a continuation token and the
second without: both pages are fetched once, in order. -/
theorem fetchAllProducts_pagination_witness :
    (fetchAllProducts
        [{ products := [pageProductA], hasNext := true },
         { products := [pageProductB], hasNext := false }]).1 =
      [pageProductA, pageProductB] ∧
    (fetchAllProducts
        [{ products := [pageProductA], hasNext := true },
         { products := [pageProductB], hasNext := false }]).2 = 2 := by
  have h := fetchAllProducts_pagination
    [{ products := [pageProductA], hasNext := true }]
    { products := [pageProductB], hasNext := false }
    (by intro r hr; simp at hr; rw [hr]) rfl
  refine ⟨?_, ?_⟩
  · have := h.1
    simpa using this
  · simpa using h.2.1

/-! ## C9: the pagination loop has no iteration cap -/

theorem fetchAllProducts_replicate_requests (n : Nat) :
    (fetchAllProducts
        (List.replicate n { products := [], hasNext := true })).2 = n := by
  induction n with
  | zero => rfl
  | succ k ih => simp [List.replicate_succ, fetchAllProducts, ih]

/-- C9 (counterexample). The claim asserts a defensive iteration cap; the
fetcher has none: no bound dominates its request count over all sources,
since a source answering every request with a continuation token drives the
count past any candidate cap, and no error is ever signalled. -/
theorem fetchAllProducts_no_iteration_cap :
    ¬ ∃ cap : Nat, ∀ rs : List PageResponse, (fetchAllProducts rs).2 ≤ cap := by
  rintro ⟨cap, h⟩
  have hc := h (List.replicate (cap + 1) { products := [], hasNext := true })
  rw [fetchAllProducts_replicate_requests] at hc
  omega

/-- C9 (amended). The loop is bounded only by the termination condition the
code really has: a response without a continuation token stops it at once
(one request, that response's products, no further request), while a source
that always returns a token drives the request count beyond any bound, with
no cap and no Source error. -/
theorem fetchAllProducts_stops_only_on_absent_token :
    (∀ (r : PageResponse) (rest : List PageResponse), r.hasNext = false →
        fetchAllProducts (r :: rest) = (r.products, 1)) ∧
    (∀ n : Nat, n <
        (fetchAllProducts
          (List.replicate (n + 1) { products := [], hasNext := true })).2) := by
  constructor
  · intro r rest hr
    simp [fetchAllProducts, hr]
  · intro n
    rw [fetchAllProducts_replicate_requests]
    omega

/-- C9 (witness). A first response without a token stops the loop after one
request even though more responses would be available. -/
theorem fetchAllProducts_stops_only_on_absent_token_witness :
    fetchAllProducts
        [{ products := [pageProductA], hasNext := false },
         { products := [pageProductB], hasNext := true }] =
      ([pageProductA], 1) :=
  fetchAllProducts_stops_only_on_absent_token.1
    { products := [pageProductA], hasNext := false }
    [{ products := [pageProductB], hasNext := true }] rfl

/-! ## C6: variant option lookup and fallback chains -/

/-- C6. The lookup resolves a target name to the first product option whose
name matches case-insensitively and reads the variant slot at its 1-based
position (1 to `option1` and so on), yielding nothing when no option
matches or the slot is absent or empty; the color cell tries `Color` then
`Farbe`, the size cell tries `Size` then `Größe`, the material cell tries
only `Material`, and in each chain the first non-empty result wins. -/
theorem variant_option_lookup_characterization (p : Product) (v : Variant)
    (name : String) :
    (variantSlot v 1 = v.option1 ∧ variantSlot v 2 = v.option2 ∧
      variantSlot v 3 = v.option3) ∧
    ((∀ o ∈ p.options.getD [], jsToLower o.name ≠ jsToLower name) →
        getVariantOptionByName p v name = none) ∧
    (∀ o, (p.options.getD []).find?
          (fun o => jsToLower o.name = jsToLower name) = some o →
        ((variantSlot v o.position = none →
            getVariantOptionByName p v name = none) ∧
         (variantSlot v o.position = some "" →
            getVariantOptionByName p v name = none) ∧
         (∀ s, variantSlot v o.position = some s → s ≠ "" →
            getVariantOptionByName p v name = some s))) ∧
    (∀ c, getVariantOptionByName p v "Color" = some c → colorCell p v = c) ∧
    (getVariantOptionByName p v "Color" = none →
        (∀ c, getVariantOptionByName p v "Farbe" = some c → colorCell p v = c) ∧
        (getVariantOptionByName p v "Farbe" = none → colorCell p v = "")) ∧
    (∀ s, getVariantOptionByName p v "Size" = some s → sizeCell p v = s) ∧
    (getVariantOptionByName p v "Size" = none →
        (∀ s, getVariantOptionByName p v "Größe" = some s → sizeCell p v = s) ∧
        (getVariantOptionByName p v "Größe" = none → sizeCell p v = "")) ∧
    materialCell p v = (getVariantOptionByName p v "Material").getD "" := by
  refine ⟨⟨rfl, rfl, rfl⟩, ?_, ?_, ?_, ?_, ?_, ?_, ?_⟩
  · intro hnone
    have hfind : (p.options.getD []).find?
        (fun o => jsToLower o.name = jsToLower name) = none := by
      rw [List.find?_eq_none]
      intro o ho
      simpa using hnone o ho
    simp [getVariantOptionByName, hfind]
  · intro o hfind
    refine ⟨?_, ?_, ?_⟩
    · intro hslot
      simp [getVariantOptionByName, hfind, hslot]
    · intro hslot
      simp [getVariantOptionByName, hfind, hslot]
    · intro s hslot hs
      simp [getVariantOptionByName, hfind, hslot, hs]
  · intro c hc
    simp [colorCell, hc]
  · intro hcolor
    refine ⟨?_, ?_⟩
    · intro c hc
      simp [colorCell, hcolor, hc]
    · intro hfarbe
      simp [colorCell, hcolor, hfarbe]
  · intro s hs
    simp [sizeCell, hs]
  · intro hsize
    refine ⟨?_, ?_⟩
    · intro s hs
      simp [sizeCell, hsize, hs]
    · intro hgr
      simp [sizeCell, hsize, hgr]
  · cases hm : getVariantOptionByName p v "Material" with
    | none => simp [materialCell, hm]
    | some s => simp [materialCell, hm]

/-- A product with one German-named color option in first position. -/
def farbeProduct : Product :=
  { id := 11, title := "Kerze", handle := "kerze", body_html := none,
    vendor := none, product_type := none, status := "active", images := none,
    options := some [{ name := "Farbe", position := 1 }],
    variants := [] }

/-- A variant whose first option slot carries the color value. -/
def farbeVariant : Variant :=
  { untrackedUnsetVariant with option1 := some "Rot" }

/-- C6 (witness). On a product whose only option is `Farbe` at position 1,
the `Color` lookup misses, the `Farbe` fallback reads `option1`, and the
color cell receives its value. -/
theorem variant_option_lookup_characterization_witness :
    getVariantOptionByName farbeProduct farbeVariant "Farbe" = some "Rot" ∧
    colorCell farbeProduct farbeVariant = "Rot" := by
  have h := variant_option_lookup_characterization farbeProduct farbeVariant "Farbe"
  have hfind : (farbeProduct.options.getD []).find?
      (fun o => jsToLower o.name = jsToLower "Farbe") =
      some { name := "Farbe", position := 1 } := by decide
  have hlook := (h.2.2.1 { name := "Farbe", position := 1 } hfind).2.2 "Rot" rfl
    (by decide)
  have hcolornone : getVariantOptionByName farbeProduct farbeVariant "Color" = none := by
    have h2 := variant_option_lookup_characterization farbeProduct farbeVariant "Color"
    exact h2.2.1 (by decide)
  exact ⟨hlook, (h.2.2.2.2.1 hcolornone).1 "Rot" hlook⟩

/-! ## C7: defensive defaults for missing optional data -/

/-- A variant with every optional field absent, including the price. -/
def allAbsentVariant : Variant :=
  { id := 9, sku := none, title := "Default Title", price := none,
    compare_at_price := none, inventory_management := .undef,
    inventory_quantity := 0, barcode := none, weight := none,
    weight_unit := none, option1 := none, option2 := none, option3 := none }

/-- A product with every optional field absent. -/
def allAbsentProduct : Product :=
  { id := 3, title := "Bare", handle := "bare", body_html := none,
    vendor := none, product_type := none, status := "active", images := none,
    options := none, variants := [allAbsentVariant] }

/-- C7 (counterexample). With the price absent, row construction still
succeeds, but the price cell becomes the text `NaN EUR` rather than any
empty or default value. -/
theorem buildItemRow_missing_price_counterexample :
    allAbsentVariant.price = none ∧
    regularPrice allAbsentVariant = "NaN EUR" ∧
    regularPrice allAbsentVariant ≠ "" ∧
    (rowCells allAbsentProduct allAbsentVariant)[7]? =
      some (JsVal.str "NaN EUR") := by
  refine ⟨rfl, by decide, by decide, by decide⟩

/-- C7 (amended). Row construction is total, and every listed optional
field other than the price resolves to its defined empty or default value
when absent: no images gives empty image cells, no options gives empty
color, size and material cells, no barcode gives an empty gtin and the
literal `false` identifier flag, no weight gives an empty weight cell, no
vendor, product type or description gives empty cells, no SKU gives the
synthetic identifier, and no compare-at price gives an empty sale price;
an absent price instead renders as `NaN EUR`. -/
theorem buildItemRow_defensive_defaults (p : Product) (v : Variant) :
    (p.images = none → imageLinkCell p = "" ∧ additionalImagesCell p = "") ∧
    (p.options = none →
        colorCell p v = "" ∧ sizeCell p v = "" ∧ materialCell p v = "") ∧
    (v.barcode = none →
        barcodeCell v = "" ∧ identifierExistsCell v = "false") ∧
    (v.weight = none → weightCell v = "") ∧
    (p.vendor = none → brandCell p = "") ∧
    (p.product_type = none → productTypeCell p = "") ∧
    (p.body_html = none → stripHtml p.body_html = "") ∧
    (v.sku = none →
        variantIdCell p v = "shopify_" ++ toString p.id ++ "_" ++ toString v.id) ∧
    (v.compare_at_price = none → salePrice v = "") ∧
    (v.price = none → v.compare_at_price = none →
        regularPrice v = "NaN" ++ " " ++ CURRENCY) := by
  refine ⟨?_, ?_, ?_, ?_, ?_, ?_, ?_, ?_, ?_, ?_⟩
  · intro h
    simp [imageLinkCell, additionalImagesCell, h, orElseStr, jsJoin]
  · intro h
    have hlook : ∀ name, getVariantOptionByName p v name = none := by
      intro name
      simp [getVariantOptionByName, h]
    simp [colorCell, sizeCell, materialCell, hlook]
  · intro h
    simp [barcodeCell, identifierExistsCell, h, orElseStr]
  · intro h
    simp [weightCell, h]
  · intro h
    simp [brandCell, h, orElseStr]
  · intro h
    simp [productTypeCell, h, orElseStr]
  · intro h
    simp [stripHtml, h]
  · intro h
    simp [variantIdCell, h, orElseStr]
  · intro h
    simp [salePrice, hasSalePrice, h]
  · intro h hc
    simp [regularPrice, hasSalePrice, h, hc, priceText]

/-- C7 (witness). On a product and variant with every optional field
absent, each cell takes its defended default. -/
theorem buildItemRow_defensive_defaults_witness :
    imageLinkCell allAbsentProduct = "" ∧
    colorCell allAbsentProduct allAbsentVariant = "" ∧
    barcodeCell allAbsentVariant = "" ∧
    identifierExistsCell allAbsentVariant = "false" ∧
    weightCell allAbsentVariant = "" ∧
    brandCell allAbsentProduct = "" ∧
    productTypeCell allAbsentProduct = "" ∧
    stripHtml allAbsentProduct.body_html = "" ∧
    variantIdCell allAbsentProduct allAbsentVariant = "shopify_3_9" ∧
    salePrice allAbsentVariant = "" := by
  have h := buildItemRow_defensive_defaults allAbsentProduct allAbsentVariant
  refine ⟨(h.1 rfl).1, (h.2.1 rfl).1, (h.2.2.1 rfl).1, (h.2.2.1 rfl).2,
    h.2.2.2.1 rfl, h.2.2.2.2.1 rfl, h.2.2.2.2.2.1 rfl, h.2.2.2.2.2.2.1 rfl,
    ?_, h.2.2.2.2.2.2.2.2.1 rfl⟩
  · rw [h.2.2.2.2.2.2.2.1 rfl]
    decide

/-! ## C8: serialized document shape -/

theorem jsJoin_cons_foldr (s x : String) (xs : List String) :
    jsJoin s (x :: xs) = x ++ (xs.map (fun r => s ++ r)).foldr (fun a b => a ++ b) "" := by
  induction xs generalizing x with
  | nil => simp [jsJoin]
  | cons y ys ih =>
    simp only [jsJoin, List.map_cons, List.foldr_cons]
    rw [ih y]
    simp [String.append_assoc]

set_option maxRecDepth 8192 in
/-- C8. The document is the header line followed by one line per record,
lines joined by single newlines with no trailing newline; the header holds
exactly the 19 column names in order, every data row holds 19 cells, and
cell i of a row carries the field named by header i. -/
theorem csv_document_shape :
    jsJoin "," CSV_HEADERS =
      "id,title,description,link,image_link,additional_image_link,availability,price,sale_price,brand,condition,gtin,identifier_exists,product_type,item_group_id,color,size,material,shipping_weight" ∧
    CSV_HEADERS.length = 19 ∧
    (∀ rows : List String, buildCsv rows =
        jsJoin "," CSV_HEADERS ++
          (rows.map (fun r => "\n" ++ r)).foldr (fun a b => a ++ b) "") ∧
    (∀ (p : Product) (v : Variant),
        (rowCells p v).length = 19 ∧
        buildItemRow p v = jsJoin "," ((rowCells p v).map escapeCsv) ∧
        (CSV_HEADERS[0]? = some "id" ∧
          (rowCells p v)[0]? = some (.str (variantIdCell p v))) ∧
        (CSV_HEADERS[1]? = some "title" ∧
          (rowCells p v)[1]? = some (.str (titleCell p v))) ∧
        (CSV_HEADERS[2]? = some "description" ∧
          (rowCells p v)[2]? = some (.str (stripHtml p.body_html))) ∧
        (CSV_HEADERS[3]? = some "link" ∧
          (rowCells p v)[3]? = some (.str (linkCell p))) ∧
        (CSV_HEADERS[4]? = some "image_link" ∧
          (rowCells p v)[4]? = some (.str (imageLinkCell p))) ∧
        (CSV_HEADERS[5]? = some "additional_image_link" ∧
          (rowCells p v)[5]? = some (.str (additionalImagesCell p))) ∧
        (CSV_HEADERS[6]? = some "availability" ∧
          (rowCells p v)[6]? = some (.str (getAvailability v p.status))) ∧
        (CSV_HEADERS[7]? = some "price" ∧
          (rowCells p v)[7]? = some (.str (regularPrice v))) ∧
        (CSV_HEADERS[8]? = some "sale_price" ∧
          (rowCells p v)[8]? = some (.str (salePrice v))) ∧
        (CSV_HEADERS[9]? = some "brand" ∧
          (rowCells p v)[9]? = some (.str (brandCell p))) ∧
        (CSV_HEADERS[10]? = some "condition" ∧
          (rowCells p v)[10]? = some (.str "new")) ∧
        (CSV_HEADERS[11]? = some "gtin" ∧
          (rowCells p v)[11]? = some (.str (barcodeCell v))) ∧
        (CSV_HEADERS[12]? = some "identifier_exists" ∧
          (rowCells p v)[12]? = some (.str (identifierExistsCell v))) ∧
        (CSV_HEADERS[13]? = some "product_type" ∧
          (rowCells p v)[13]? = some (.str (productTypeCell p))) ∧
        (CSV_HEADERS[14]? = some "item_group_id" ∧
          (rowCells p v)[14]? = some (.num (Int.ofNat p.id))) ∧
        (CSV_HEADERS[15]? = some "color" ∧
          (rowCells p v)[15]? = some (.str (colorCell p v))) ∧
        (CSV_HEADERS[16]? = some "size" ∧
          (rowCells p v)[16]? = some (.str (sizeCell p v))) ∧
        (CSV_HEADERS[17]? = some "material" ∧
          (rowCells p v)[17]? = some (.str (materialCell p v))) ∧
        (CSV_HEADERS[18]? = some "shipping_weight" ∧
          (rowCells p v)[18]? = some (.str (weightCell v)))) := by
  refine ⟨by decide, by decide, ?_, ?_⟩
  · intro rows
    exact jsJoin_cons_foldr "\n" (jsJoin "," CSV_HEADERS) rows
  · intro p v
    exact ⟨rfl, rfl, ⟨rfl, rfl⟩, ⟨rfl, rfl⟩, ⟨rfl, rfl⟩, ⟨rfl, rfl⟩,
      ⟨rfl, rfl⟩, ⟨rfl, rfl⟩, ⟨rfl, rfl⟩, ⟨rfl, rfl⟩, ⟨rfl, rfl⟩, ⟨rfl, rfl⟩,
      ⟨rfl, rfl⟩, ⟨rfl, rfl⟩, ⟨rfl, rfl⟩, ⟨rfl, rfl⟩, ⟨rfl, rfl⟩, ⟨rfl, rfl⟩,
      ⟨rfl, rfl⟩, ⟨rfl, rfl⟩, ⟨rfl, rfl⟩⟩

/-! ## C10: escaping round trip under standard CSV parsing -/

/-- The text a cell contributes to its serialized field: falsy cells
collapse to the empty string, all others render as their text. -/
def cellText (v : JsVal) : String := if jsFalsy v then "" else jsToString v

/-- Read one unquoted field: every character up to the first comma; the
remainder starts at that comma. -/
def parseUnquoted : List Char → List Char × List Char
  | [] => ([], [])
  | c :: cs =>
    if c = ',' then ([], c :: cs)
    else
      let p := parseUnquoted cs
      (c :: p.1, p.2)

/-- Read the body of a quoted field after its opening quote: a doubled
quote is one literal quote, a single quote closes the field, and the
remainder starts after the closing quote. -/
def parseQuotedBody : List Char → List Char × List Char
  | [] => ([], [])
  | c :: cs =>
    if c = '"' then
      match cs with
      | [] => ([], [])
      | c2 :: cs2 =>
        if c2 = '"' then
          let p := parseQuotedBody cs2
          ('"' :: p.1, p.2)
        else ([], c2 :: cs2)
    else
      let p := parseQuotedBody cs
      (c :: p.1, p.2)

/-- Read one field under standard CSV rules: a field beginning with a
double quote extends to its matching close quote, any other field extends
to the first comma. -/
def parseField (l : List Char) : String × List Char :=
  match l with
  | [] => ("", [])
  | c :: rest =>
    if c = '"' then
      let p := parseQuotedBody rest
      (String.mk p.1, p.2)
    else
      let p := parseUnquoted (c :: rest)
      (String.mk p.1, p.2)

theorem parseUnquoted_length :
    ∀ l : List Char, (parseUnquoted l).2.length ≤ l.length
  | [] => by simp [parseUnquoted]
  | c :: cs => by
    by_cases hc : c = ','
    · simp [parseUnquoted, hc]
    · have := parseUnquoted_length cs
      simp only [parseUnquoted, hc, if_false, List.length_cons]
      omega

theorem parseQuotedBody_length :
    ∀ l : List Char, (parseQuotedBody l).2.length ≤ l.length
  | [] => by simp [parseQuotedBody]
  | c :: cs => by
    by_cases hc : c = '"'
    · subst hc
      cases cs with
      | nil => simp [parseQuotedBody]
      | cons c2 cs2 =>
        by_cases h2 : c2 = '"'
        · subst h2
          have := parseQuotedBody_length cs2
          simp only [parseQuotedBody, if_true]
          simp only [List.length_cons]
          omega
        · simp [parseQuotedBody, h2]
    · have := parseQuotedBody_length cs
      rw [parseQuotedBody.eq_def]
      simp only [hc, if_false, List.length_cons]
      omega

theorem parseField_length (l : List Char) : (parseField l).2.length ≤ l.length := by
  cases l with
  | nil => simp [parseField]
  | cons c rest =>
    by_cases hc : c = '"'
    · have := parseQuotedBody_length rest
      simp only [parseField, hc, if_true, List.length_cons]
      omega
    · have := parseUnquoted_length (c :: rest)
      simpa [parseField, hc] using this

/-- Parse one serialized line into its fields under standard CSV rules:
fields are split on unquoted commas. -/
def parseLine (l : List Char) : List String :=
  if h : (parseField l).2.head? = some ',' then
    (parseField l).1 :: parseLine (parseField l).2.tail
  else [(parseField l).1]
termination_by l.length
decreasing_by
  have hle := parseField_length l
  cases hpf : (parseField l).2 with
  | nil => rw [hpf] at h; simp at h
  | cons a as =>
    rw [hpf] at hle
    simp only [List.tail_cons, List.length_cons] at hle ⊢
    omega

theorem parseLine_of_end (l : List Char) (h : (parseField l).2 = []) :
    parseLine l = [(parseField l).1] := by
  rw [parseLine]
  simp [h]

theorem parseLine_of_comma (l r : List Char) (h : (parseField l).2 = ',' :: r) :
    parseLine l = (parseField l).1 :: parseLine r := by
  rw [parseLine]
  simp [h]

theorem string_mk_data (s : String) : String.mk s.data = s := rfl

theorem parseUnquoted_append :
    ∀ (xs t : List Char), ',' ∉ xs → (t = [] ∨ ∃ r, t = ',' :: r) →
      parseUnquoted (xs ++ t) = (xs, t)
  | [], t, _, ht => by
    rcases ht with h | ⟨r, h⟩ <;> subst h
    · simp [parseUnquoted]
    · simp [parseUnquoted]
  | c :: cs, t, hx, ht => by
    have hc : ¬ c = ',' := fun h => hx (by simp [h])
    have ih := parseUnquoted_append cs t (fun h => hx (List.mem_cons_of_mem c h)) ht
    simp only [List.cons_append, parseUnquoted, hc, if_false, List.append_eq]
    rw [ih]

theorem parseQuotedBody_append :
    ∀ (cs t : List Char), (t = [] ∨ ∃ r, t = ',' :: r) →
      parseQuotedBody (doubleQuotes cs ++ ('"' :: t)) = (cs, t)
  | [], t, ht => by
    rcases ht with h | ⟨r, h⟩ <;> subst h
    · simp [doubleQuotes, parseQuotedBody]
    · rw [show doubleQuotes [] ++ ('"' :: (',' :: r)) = '"' :: ',' :: r from rfl]
      rw [parseQuotedBody.eq_def]
      simp
  | c :: cs, t, ht => by
    have ih := parseQuotedBody_append cs t ht
    by_cases hc : c = '"'
    · subst hc
      rw [show doubleQuotes ('"' :: cs) = '"' :: '"' :: doubleQuotes cs from by
        simp [doubleQuotes]]
      simp only [List.cons_append]
      rw [parseQuotedBody.eq_def]
      simp [ih]
    · rw [show doubleQuotes (c :: cs) = c :: doubleQuotes cs from by
        simp [doubleQuotes, hc]]
      simp only [List.cons_append]
      rw [parseQuotedBody.eq_def]
      simp [hc, ih]

theorem parseField_escape (v : JsVal) (t : List Char)
    (ht : t = [] ∨ ∃ r, t = ',' :: r) :
    parseField ((escapeCsv v).data ++ t) = (cellText v, t) := by
  by_cases hf : jsFalsy v
  · have he : escapeCsv v = "" := by simp [escapeCsv, hf]
    have hct : cellText v = "" := by simp [cellText, hf]
    rw [he, hct]
    rcases ht with h | ⟨r, h⟩ <;> subst h
    · simp [parseField]
    · rw [show ("" : String).data ++ (',' :: r) = ',' :: r from rfl]
      rw [parseField]
      simp [parseUnquoted]
  · have hct : cellText v = jsToString v := by simp [cellText, hf]
    by_cases hs : hasCsvSpecial (jsToString v)
    · have he : escapeCsv v =
          "\"" ++ String.mk (doubleQuotes (jsToString v).data) ++ "\"" := by
        simp [escapeCsv, hf, hs]
      rw [he, hct]
      have hdata :
          ("\"" ++ String.mk (doubleQuotes (jsToString v).data) ++ "\"").data ++ t
            = '"' :: (doubleQuotes (jsToString v).data ++ ('"' :: t)) := by
        simp [String.data_append]
      rw [hdata, parseField]
      simp [parseQuotedBody_append (jsToString v).data t ht]
    · have he : escapeCsv v = jsToString v := by
        simp [escapeCsv, hf, hs]
      rw [he, hct]
      have hsm := hs
      simp only [hasCsvSpecial] at hsm
      have hnot : '"' ∉ (jsToString v).data ∧ ',' ∉ (jsToString v).data := by
        simp at hsm
        exact ⟨hsm.1.1, hsm.1.2⟩
      cases hd : (jsToString v).data with
      | nil =>
        have hv : jsToString v = "" := by
          rw [← string_mk_data (jsToString v), hd]
        rw [hv]
        rcases ht with h | ⟨r, h⟩ <;> subst h
        · simp [parseField]
        · rw [show ("" : String).data ++ (',' :: r) = ',' :: r from rfl]
          rw [parseField]
          simp [parseUnquoted]
      | cons c cs =>
        have hcq : ¬ c = '"' := by
          intro h
          exact hnot.1 (by rw [hd, h]; exact List.mem_cons_self _ _)
        have hcm : ',' ∉ c :: cs := by rw [← hd]; exact hnot.2
        have hpu := parseUnquoted_append (c :: cs) t hcm ht
        rw [List.cons_append] at hpu
        rw [List.cons_append, parseField.eq_def]
        simp only [hcq, if_false, hpu]
        rw [← hd, string_mk_data]

theorem parseLine_join :
    ∀ cells : List JsVal, cells ≠ [] →
      parseLine (jsJoin "," (cells.map escapeCsv)).data = cells.map cellText
  | [], h => absurd rfl h
  | [c], _ => by
    simp only [List.map_cons, List.map_nil]
    have hpf : parseField ((escapeCsv c).data) = (cellText c, []) := by
      have := parseField_escape c [] (Or.inl rfl)
      simpa using this
    have hend := parseLine_of_end ((escapeCsv c).data) (by rw [hpf])
    rw [show jsJoin "," [escapeCsv c] = escapeCsv c from rfl]
    rw [hend, hpf]
  | c :: d :: ds, _ => by
    have ih := parseLine_join (d :: ds) (by simp)
    simp only [List.map_cons] at ih ⊢
    rw [show jsJoin "," (escapeCsv c :: escapeCsv d :: List.map escapeCsv ds) =
        escapeCsv c ++ "," ++ jsJoin "," (escapeCsv d :: List.map escapeCsv ds)
      from rfl]
    have hdata :
        (escapeCsv c ++ "," ++
            jsJoin "," (escapeCsv d :: List.map escapeCsv ds)).data
          = (escapeCsv c).data ++
            (',' :: (jsJoin "," (escapeCsv d :: List.map escapeCsv ds)).data) := by
      simp [String.data_append]
    rw [hdata]
    have hpf := parseField_escape c
      (',' :: (jsJoin "," (escapeCsv d :: List.map escapeCsv ds)).data)
      (Or.inr ⟨_, rfl⟩)
    have hcomma := parseLine_of_comma _
      ((jsJoin "," (escapeCsv d :: List.map escapeCsv ds)).data) (by rw [hpf])
    rw [hcomma, hpf, ih]

/-- C10. Standard CSV parsing of a serialized 19-field data line (split on
unquoted commas, a field opening with a double quote extends to its close
quote with doubled quotes read as one) recovers exactly the cells of the
row, each falsy cell collapsed to the empty string: escaping then joining
loses no field boundary. -/
theorem csv_line_roundtrip (cells : List JsVal) (h : cells.length = 19) :
    parseLine (jsJoin "," (cells.map escapeCsv)).data = cells.map cellText := by
  have hne : cells ≠ [] := by
    intro hnil
    rw [hnil] at h
    simp at h
  exact parseLine_join cells hne

/-- Nineteen cells exercising commas, embedded quotes, a newline, empty
strings and the numeric zero cell. -/
def roundtripCells : List JsVal :=
  [ .str "shopify_1_7", .str "Lotion - 50ml", .str "Calms, soothes",
    .str "https://lunaglow.de/products/lotion", .str "", .str "a.jpg,b.jpg",
    .str "in_stock", .str "19.99 EUR", .str "", .str "Acme \"Labs\"",
    .str "new", .str "", .str "false", .str "Body\nCare", .num 0,
    .str "Rot", .str "", .str "", .num 42 ]

/-- C10 (witness). The round trip applied to a concrete 19-cell row. -/
theorem csv_line_roundtrip_witness :
    roundtripCells.length = 19 ∧
    parseLine (jsJoin "," (roundtripCells.map escapeCsv)).data =
      roundtripCells.map cellText :=
  ⟨by decide, csv_line_roundtrip roundtripCells (by decide)⟩
